import Mathlib

/-! # Quiz game: question bank, answer checking, scoring and leaderboard

A shallow embedding of `CSCI202_FinalProject.cpp`.

* `std::string` is embedded as `String`, read through its list of characters.
* `int` is embedded as `Int`; the session score never exceeds `20 * 25`.
* An input stream is a buffer of pending characters with its `eofbit` and
  `failbit`; `std::getline` is embedded on that state.
* What the user types and what the clock measures are arguments of the
  embedded functions.
-/

namespace QuizGame

/-! ## Questions and answer checking -/

/-- Base class `Question`: the prompt and the stored answer. -/
structure Question where
  question : String
  answer : String
deriving DecidableEq, Repr

/-- Derived class `CategoryQuestion`: a `Question` with a category. -/
structure CategoryQuestion extends Question where
  category : String
deriving DecidableEq, Repr

/-- The C library `toupper` in the default "C" locale (the program never calls
`setlocale`): the letters `a`..`z` (codes 97..122) are moved down by 32, every
other character is returned as is. -/
def toupper (c : Char) : Char :=
  if 97 ≤ c.toNat ∧ c.toNat ≤ 122 then Char.ofNat (c.toNat - 32) else c

/-- The call `std::transform(s.begin(), s.end(), s.begin(), ::toupper)`. -/
def transformToupper (s : String) : String :=
  String.mk (s.data.map toupper)

/-- Method `Question::checkAnswer`: both strings are upper-cased, then compared
with `==`. -/
def Question.checkAnswer (q : Question) (userAnswer : String) : Bool :=
  let userAnswerUpper := transformToupper userAnswer
  let correctAnswerUpper := transformToupper q.answer
  userAnswerUpper == correctAnswerUpper

/-! ## Input streams and `std::getline` -/

/-- An input stream (`std::ifstream`, `std::istringstream`): the characters not
yet extracted and the two state bits that `std::getline` reads and sets. -/
structure IStream where
  buf : List Char
  eofbit : Bool
  failbit : Bool
deriving DecidableEq, Repr

/-- A freshly opened stream over the given text. -/
def IStream.open (text : String) : IStream :=
  { buf := text.data, eofbit := false, failbit := false }

/-- The member `good()`: neither `eofbit` nor `failbit` is set. -/
def IStream.good (s : IStream) : Bool :=
  !s.eofbit && !s.failbit

/-- The conversion of a stream to `bool`, which is `!fail()`. -/
def IStream.toBool (s : IStream) : Bool :=
  !s.failbit

/-- The extraction loop of `std::getline`: characters are taken until the
delimiter (extracted and dropped) or the end of the input. The result is the
characters stored, the characters left, and whether the delimiter was met. -/
def extractUntil (delim : Char) : List Char → List Char × List Char × Bool
  | [] => ([], [], false)
  | c :: cs =>
    if c = delim then ([], cs, true)
    else
      let r := extractUntil delim cs
      (c :: r.1, r.2.1, r.2.2)

/-- The function `std::getline(is, str, delim)`. When the stream is not `good()`
the sentry fails: `failbit` is set and `str` keeps its value. Otherwise `str`
is erased and filled up to the delimiter; reaching the end of the input sets
`eofbit`, and `failbit` too when nothing at all was extracted. -/
def getline (is : IStream) (str : String) (delim : Char) : IStream × String :=
  if is.good then
    match extractUntil delim is.buf with
    | (taken, rest, true) => ({ is with buf := rest }, String.mk taken)
    | (taken, _, false) =>
      ({ buf := [], eofbit := true, failbit := taken.isEmpty }, String.mk taken)
  else
    ({ is with failbit := true }, str)

/-! ## Loading the question bank -/

/-- The member `questions` together with the text sent to `std::cerr`. -/
structure Bank where
  questions : List CategoryQuestion
  cerr : List String
deriving DecidableEq, Repr

/-- The condition of the `if` in the loading loop: three chained `getline`
calls on an `istringstream` over the line, joined by a short-circuit `&&`. -/
def parseLine (line : String) : Option CategoryQuestion :=
  let iss := IStream.open line
  let r1 := getline iss "" '|'
  if r1.1.toBool then
    let r2 := getline r1.1 "" '|'
    if r2.1.toBool then
      let r3 := getline r2.1 "" '\n'
      if r3.1.toBool then
        some { question := r1.2, answer := r2.2, category := r3.2 }
      else none
    else none
  else none

/-- The body of the loading loop for one line: a parsed line is pushed onto
`questions`, any other line is reported on `std::cerr`. -/
def loadLine (bank : Bank) (line : String) : Bank :=
  match parseLine line with
  | some q => { bank with questions := bank.questions ++ [q] }
  | none => { bank with cerr := bank.cerr ++ ["Invalid line in file: " ++ line] }

/-- The loop `while (std::getline(file, line))` of `loadQuestionsFromFile`.
Every iteration that does not leave the loop extracts a character or sets
`eofbit`, so `fuel` bounds the number of iterations. -/
def loadLoop : Nat → IStream → String → Bank → Bank
  | 0, _, _, bank => bank
  | fuel + 1, file, line, bank =>
    let r := getline file line '\n'
    if r.1.toBool then loadLoop fuel r.1 r.2 (loadLine bank r.2)
    else bank

/-- The function `QuizGame::loadQuestionsFromFile`. The file is `none` when it
cannot be opened and its text otherwise. -/
def loadQuestionsFromFile (bank : Bank) (filename : String) (file : Option String) : Bank :=
  match file with
  | none => { bank with cerr := bank.cerr ++ ["Error opening file: " ++ filename] }
  | some text => loadLoop (text.length + 1) (IStream.open text) "" bank

/-! ## Adding a question -/

/-- The `switch (categoryChoice)` of `addQuestion`; `none` is the `default`
case. -/
def categoryOfChoice (categoryChoice : Int) : Option String :=
  if categoryChoice = 1 then some "History"
  else if categoryChoice = 2 then some "Geography"
  else if categoryChoice = 3 then some "Science"
  else if categoryChoice = 4 then some "Entertainment"
  else if categoryChoice = 5 then some "Art"
  else none

/-- The text `question << "|" << answer << "|" << category << "\n"` that
`addQuestion` sends to `questions.txt`. -/
def questionLine (q : CategoryQuestion) : String :=
  q.question ++ "|" ++ q.answer ++ "|" ++ q.category ++ "\n"

/-- A file opened with `std::ios::app` after one line was written to it. -/
def appendLine (text : String) (q : CategoryQuestion) : String :=
  text ++ questionLine q

/-- What `addQuestion` leaves behind: the member `questions`, the file
`questions.txt` (`none` when it cannot be opened for append) and the two output
streams. -/
structure AddResult where
  questions : List CategoryQuestion
  questionsTxt : Option String
  cout : List String
  cerr : List String
deriving DecidableEq, Repr

/-- The function `QuizGame::addQuestion`, from the `switch` on. The entered
prompt, answer and category number are arguments. -/
def addQuestion (questions : List CategoryQuestion) (question answer : String)
    (categoryChoice : Int) (questionsTxt : Option String) : AddResult :=
  match categoryOfChoice categoryChoice with
  | none =>
    { questions := questions, questionsTxt := questionsTxt, cout := [],
      cerr := ["Invalid category choice.\n"] }
  | some category =>
    let q : CategoryQuestion := { question := question, answer := answer, category := category }
    let questions := questions ++ [q]
    match questionsTxt with
    | some text =>
      { questions := questions, questionsTxt := some (appendLine text q),
        cout := ["Question added successfully!\n"], cerr := [] }
    | none =>
      { questions := questions, questionsTxt := none, cout := [],
        cerr := ["Unable to open questions.txt for appending.\n"] }

/-! ## Scoring one question -/

/-- The constant `timeLimitSeconds` of `playGame`. -/
def timeLimitSeconds : Int := 15

/-- The conversion `static_cast<int>` of a fractional value: the fraction is
dropped, rounding toward zero. -/
def staticCastInt (x : ℚ) : Int :=
  if 0 ≤ x then ⌊x⌋ else ⌈x⌉

/-- The expression
`static_cast<int>(std::max(0.0, timeLimitSeconds - elapsedSeconds.count()))`.
The elapsed time, a `double` in the source, is an exact rational here; the
rounding of the subtraction is not part of the embedding. -/
def timeBonus (elapsedSeconds : ℚ) : Int :=
  staticCastInt (max 0 ((timeLimitSeconds : ℚ) - elapsedSeconds))

/-- The variable `score` and the text sent to `std::cout` after the answer was
read. -/
structure Round where
  score : Int
  cout : List String
deriving DecidableEq, Repr

/-- The part of the loop body of `playGame` that follows the timer: the answer
is checked and the score updated, then the out-of-time notice is printed. -/
def playQuestion (score : Int) (q : Question) (userAnswer : String)
    (elapsedSeconds : ℚ) : Round :=
  let r : Round :=
    if q.checkAnswer userAnswer then
      { score := score + (10 + timeBonus elapsedSeconds), cout := ["Correct!\n"] }
    else
      { score := score,
        cout := ["Incorrect!\n", "The correct answer is: " ++ q.answer ++ "\n"] }
  if (timeLimitSeconds : ℚ) ≤ elapsedSeconds then
    { r with cout := r.cout ++ ["Out of time! No points awarded for this question.\n"] }
  else r

/-! ## The leaderboard -/

/-- An element of `highScores`: the pair of a score and a player name. -/
abbrev ScoreEntry := Int × String

/-- The comparison of `std::basic_string::compare` behind `operator<`:
lexicographic on the character codes, a proper prefix coming first. -/
def lexLess : List Char → List Char → Bool
  | [], [] => false
  | [], _ :: _ => true
  | _ :: _, [] => false
  | a :: as, b :: bs =>
    if a.toNat < b.toNat then true
    else if b.toNat < a.toNat then false
    else lexLess as bs

/-- The operator `<` on two `std::string`s. It is the order `<` of `String`
(`stringLess_iff_lt`), written out so that it can be evaluated. -/
def stringLess (a b : String) : Bool :=
  lexLess a.data b.data

/-- The lambda given to `std::sort`:
`lhs.first > rhs.first || (lhs.first == rhs.first && lhs.second < rhs.second)`. -/
def scoreBefore (lhs rhs : ScoreEntry) : Bool :=
  decide (lhs.1 > rhs.1) || (decide (lhs.1 = rhs.1) && stringLess lhs.2 rhs.2)

/-- The call `std::sort(highScores.begin(), highScores.end(), comp)`. The
standard fixes the result, not the algorithm: a rearrangement in which no
element is `comp`-before an earlier one. `scoreBefore` is a strict total order
on pairs, so there is one such rearrangement (`stdSort_unique`), computed here
by insertion. -/
def stdSort (highScores : List ScoreEntry) : List ScoreEntry :=
  highScores.insertionSort (fun a b => scoreBefore b a = false)

/-- The vector `highScores` and the index of the iterator `newScorePosition`
after the search for the new score. The index `highScores.length` is `end()`.
The first search always succeeds, so the branch that inserts a second entry is
never taken (`locateNewScore_eq`). -/
def locateNewScore (loaded : List ScoreEntry) (score : Int) : List ScoreEntry × Nat :=
  let highScores := stdSort (loaded ++ [(score, "Player")])
  let newScorePosition := highScores.findIdx (fun entry => entry.1 == score)
  if newScorePosition = highScores.length then
    let newScorePosition := highScores.findIdx (fun entry => decide (entry.1 < score))
    (highScores.insertIdx newScorePosition (score, "Player"), newScorePosition)
  else
    (highScores, newScorePosition)

/-- The condition under which `saveHighScores` asks for a name:
`newScorePosition != highScores.end() && distance(begin, newScorePosition) < 10`. -/
def promptIssued (loaded : List ScoreEntry) (score : Int) : Bool :=
  let r := locateNewScore loaded score
  decide (r.2 ≠ r.1.length) && decide (r.2 < 10)

/-- The function `QuizGame::saveHighScores`, from the loaded entries to the
entries written to the file. The entries read from the file by the `while`
loop and the line typed at the prompt are arguments; the typed line is stored
in `newScorePosition->second`. -/
def saveHighScores (loaded : List ScoreEntry) (score : Int) (typed : String) :
    List ScoreEntry :=
  let r := locateNewScore loaded score
  let highScores :=
    if promptIssued loaded score then r.1.modify (fun entry => (entry.1, typed)) r.2
    else r.1
  highScores.take 10

/-! ## The properties the specification states -/

/-- The leaderboard order on two entries, the first placed before the second:
a higher score, or the same score and a name that is not after the other. -/
def leaderboardOrdered (a b : ScoreEntry) : Prop :=
  b.1 < a.1 ∨ (a.1 = b.1 ∧ stringLess b.2 a.2 = false)

instance (a b : ScoreEntry) : Decidable (leaderboardOrdered a b) := by
  unfold leaderboardOrdered
  infer_instance

/-- Two characters that are equal once ASCII letters are upper-cased: the same
character, or a lower-case ASCII letter and its upper-case form. -/
def sameIgnoringCase (c d : Char) : Prop :=
  c = d ∨ (97 ≤ c.toNat ∧ c.toNat ≤ 122 ∧ d.toNat + 32 = c.toNat) ∨
    (97 ≤ d.toNat ∧ d.toNat ≤ 122 ∧ c.toNat + 32 = d.toNat)

/-- A field that contains neither `|` nor a newline. -/
def delimiterFree (s : String) : Prop :=
  '|' ∉ s.data ∧ '\n' ∉ s.data

instance (s : String) : Decidable (delimiterFree s) := by
  unfold delimiterFree
  infer_instance

/-- The categories a `Question` can have: the five names of the menu and of
the `switch` in `addQuestion` (`categoryOfChoice_iff_enumerated`). -/
def enumeratedCategory (category : String) : Prop :=
  category ∈ ["History", "Geography", "Science", "Entertainment", "Art"]

instance (category : String) : Decidable (enumeratedCategory category) := by
  unfold enumeratedCategory
  infer_instance

/-- The text of `questions.txt` after `addQuestion` wrote the given questions,
one after the other, to a file that was empty. -/
def serialize (qs : List CategoryQuestion) : String :=
  qs.foldl appendLine ""

/-! ## Proofs -/

/-! ### The order of the leaderboard -/

theorem lexLess_asymm : ∀ a b : List Char, lexLess a b = true → lexLess b a = false
  | [], [] => by simp [lexLess]
  | [], _ :: _ => by simp [lexLess]
  | _ :: _, [] => by simp [lexLess]
  | a :: as, b :: bs => by
    intro h
    by_cases h1 : a.toNat < b.toNat
    · have h2 : ¬ b.toNat < a.toNat := by omega
      simp [lexLess, h1, h2]
    · by_cases h2 : b.toNat < a.toNat
      · simp [lexLess, h1, h2] at h
      · simp only [lexLess, h1, h2, if_false] at h ⊢
        exact lexLess_asymm as bs h

theorem lexLess_negtrans : ∀ a b c : List Char,
    lexLess a c = true → lexLess a b = true ∨ lexLess b c = true
  | [], [], c => by intro h; exact Or.inr h
  | [], _ :: _, _ => by intro _; exact Or.inl rfl
  | _ :: _, _, [] => by simp [lexLess]
  | _ :: _, [], _ :: _ => by intro _; exact Or.inr rfl
  | a :: as, b :: bs, c :: cs => by
    intro h
    by_cases hab : a.toNat < b.toNat
    · left; simp [lexLess, hab]
    · by_cases hbc : b.toNat < c.toNat
      · right; simp [lexLess, hbc]
      · by_cases hac : a.toNat < c.toNat
        · omega
        · by_cases hca : c.toNat < a.toNat
          · simp [lexLess, hac, hca] at h
          · have hba : ¬ b.toNat < a.toNat := by omega
            have hcb : ¬ c.toNat < b.toNat := by omega
            simp only [lexLess, hac, hca, hab, hba, hbc, hcb, if_false] at h ⊢
            exact lexLess_negtrans as bs cs h

theorem char_eq_of_toNat_eq {a b : Char} (h : a.toNat = b.toNat) : a = b := by
  rw [← Char.ofNat_toNat a, ← Char.ofNat_toNat b, h]

theorem lexLess_connected : ∀ a b : List Char,
    lexLess a b = false → lexLess b a = false → a = b
  | [], [] => by simp
  | [], _ :: _ => by simp [lexLess]
  | _ :: _, [] => by simp [lexLess]
  | a :: as, b :: bs => by
    intro h1 h2
    by_cases hab : a.toNat < b.toNat
    · simp [lexLess, hab] at h1
    · by_cases hba : b.toNat < a.toNat
      · simp [lexLess, hba] at h2
      · simp only [lexLess, hab, hba, if_false] at h1 h2
        have e : a = b := char_eq_of_toNat_eq (by omega)
        rw [e, lexLess_connected as bs h1 h2]

theorem char_lt_iff (a b : Char) : a < b ↔ a.toNat < b.toNat := Iff.rfl

/-- The comparison `stringLess` is the lexicographic order `<` of `String`. -/
theorem stringLess_iff_lt (a b : String) : stringLess a b = true ↔ a < b := by
  have h : ∀ x y : List Char, lexLess x y = true ↔ List.lt x y := by
    intro x
    induction x with
    | nil =>
      intro y
      cases y with
      | nil => simp only [lexLess, Bool.false_eq_true, false_iff]; intro h; cases h
      | cons d ds => simp only [lexLess, true_iff]; exact List.lt.nil d ds
    | cons c cs ih =>
      intro y
      cases y with
      | nil => simp only [lexLess, Bool.false_eq_true, false_iff]; intro h; cases h
      | cons d ds =>
        constructor
        · intro hl
          by_cases h1 : c.toNat < d.toNat
          · exact List.lt.head _ _ ((char_lt_iff c d).mpr h1)
          · by_cases h2 : d.toNat < c.toNat
            · simp [lexLess, h1, h2] at hl
            · simp only [lexLess, h1, h2, if_false] at hl
              exact List.lt.tail (fun e => h1 ((char_lt_iff c d).mp e))
                (fun e => h2 ((char_lt_iff d c).mp e)) ((ih ds).mp hl)
        · intro hl
          cases hl with
          | head _ _ hcd => simp [lexLess, (char_lt_iff c d).mp hcd]
          | tail hn1 hn2 ht =>
            have h1 : ¬ c.toNat < d.toNat := fun e => hn1 ((char_lt_iff c d).mpr e)
            have h2 : ¬ d.toNat < c.toNat := fun e => hn2 ((char_lt_iff d c).mpr e)
            simp only [lexLess, h1, h2, if_false]
            exact (ih ds).mpr ht
  unfold stringLess
  rw [String.lt_iff_toList_lt]
  exact (h a.data b.data).trans (List.lt_iff_lex_lt a.data b.data)

theorem scoreBefore_eq_false_iff (a b : ScoreEntry) :
    scoreBefore b a = false ↔ leaderboardOrdered a b := by
  unfold scoreBefore leaderboardOrdered
  by_cases h1 : b.1 > a.1
  · simp [h1]; constructor
    · omega
    · intro h; omega
  · by_cases h2 : b.1 = a.1
    · simp [h2]
    · simp [h1, h2]
      omega

theorem leaderboardOrdered_total (a b : ScoreEntry) :
    leaderboardOrdered a b ∨ leaderboardOrdered b a := by
  unfold leaderboardOrdered
  rcases lt_trichotomy a.1 b.1 with h | h | h
  · exact Or.inr (Or.inl h)
  · cases hl : stringLess b.2 a.2
    · exact Or.inl (Or.inr ⟨h, rfl⟩)
    · exact Or.inr (Or.inr ⟨h.symm, lexLess_asymm _ _ hl⟩)
  · exact Or.inl (Or.inl h)

theorem leaderboardOrdered_trans {a b c : ScoreEntry}
    (hab : leaderboardOrdered a b) (hbc : leaderboardOrdered b c) :
    leaderboardOrdered a c := by
  unfold leaderboardOrdered at *
  rcases hab with h1 | ⟨h1, n1⟩ <;> rcases hbc with h2 | ⟨h2, n2⟩
  · left; omega
  · left; omega
  · left; omega
  · right
    refine ⟨by omega, ?_⟩
    cases h : stringLess c.2 a.2
    · rfl
    · rcases lexLess_negtrans _ b.2.data _ h with h3 | h3
      · unfold stringLess at n2; rw [h3] at n2; exact absurd n2 (by simp)
      · unfold stringLess at n1; rw [h3] at n1; exact absurd n1 (by simp)

theorem leaderboardOrdered_antisymm {a b : ScoreEntry}
    (hab : leaderboardOrdered a b) (hba : leaderboardOrdered b a) : a = b := by
  unfold leaderboardOrdered at *
  rcases hab with h1 | ⟨h1, n1⟩ <;> rcases hba with h2 | ⟨h2, n2⟩
  · omega
  · omega
  · omega
  · have hd : a.2.data = b.2.data := lexLess_connected _ _ n2 n1
    have hs : a.2 = b.2 := by
      cases ha : a.2; cases hb : b.2; rw [ha, hb] at hd; simp at hd; rw [hd]
    exact Prod.ext h1 hs

theorem stdSort_perm (l : List ScoreEntry) : (stdSort l).Perm l :=
  List.perm_insertionSort _ l

theorem stdSort_sorted (l : List ScoreEntry) : (stdSort l).Pairwise leaderboardOrdered := by
  have total : IsTotal ScoreEntry (fun a b => scoreBefore b a = false) :=
    ⟨fun a b => by
      simp only [scoreBefore_eq_false_iff]; exact leaderboardOrdered_total a b⟩
  have trans : IsTrans ScoreEntry (fun a b => scoreBefore b a = false) :=
    ⟨fun a b c => by
      simp only [scoreBefore_eq_false_iff]; exact leaderboardOrdered_trans⟩
  have h := @List.sorted_insertionSort _ (fun a b => scoreBefore b a = false) _ total trans l
  exact List.Pairwise.imp (fun {a b} hab => (scoreBefore_eq_false_iff a b).mp hab) h

/-- The result of `std::sort` is determined by its postcondition: a
rearrangement of the input in which no element is `scoreBefore` an earlier one
is the list `stdSort` computes. -/
theorem stdSort_unique (l sorted : List ScoreEntry) (hperm : sorted.Perm l)
    (hsorted : sorted.Pairwise (fun a b => scoreBefore b a = false)) :
    sorted = stdSort l := by
  have anti : IsAntisymm ScoreEntry leaderboardOrdered := ⟨fun _ _ => leaderboardOrdered_antisymm⟩
  have h1 : sorted.Pairwise leaderboardOrdered :=
    List.Pairwise.imp (fun {a b} hab => (scoreBefore_eq_false_iff a b).mp hab) hsorted
  exact @List.eq_of_perm_of_sorted _ leaderboardOrdered anti _ _
    (hperm.trans (stdSort_perm l).symm) h1 (stdSort_sorted l)


theorem newScore_found (loaded : List ScoreEntry) (score : Int) :
    (stdSort (loaded ++ [(score, "Player")])).findIdx (fun entry => entry.1 == score) <
      (stdSort (loaded ++ [(score, "Player")])).length := by
  apply List.findIdx_lt_length_of_exists
  refine ⟨(score, "Player"), ?_, by simp⟩
  exact (stdSort_perm _).mem_iff.mpr (by simp)

/-- The search `entry.first == score` always succeeds, because the tentative
entry was appended before: the branch that inserts a second entry never runs. -/
theorem locateNewScore_eq (loaded : List ScoreEntry) (score : Int) :
    locateNewScore loaded score =
      (stdSort (loaded ++ [(score, "Player")]),
        (stdSort (loaded ++ [(score, "Player")])).findIdx (fun entry => entry.1 == score)) := by
  unfold locateNewScore
  simp only []
  rw [if_neg (Nat.ne_of_lt (newScore_found loaded score))]

theorem locateNewScore_lt (loaded : List ScoreEntry) (score : Int) :
    (locateNewScore loaded score).2 < (locateNewScore loaded score).1.length := by
  rw [locateNewScore_eq]
  exact newScore_found loaded score

theorem locateNewScore_sorted (loaded : List ScoreEntry) (score : Int) :
    (locateNewScore loaded score).1.Pairwise leaderboardOrdered := by
  rw [locateNewScore_eq]
  exact stdSort_sorted _

theorem locateNewScore_score (loaded : List ScoreEntry) (score : Int) :
    ∃ name, (locateNewScore loaded score).1[(locateNewScore loaded score).2]? =
      some (score, name) := by
  rw [locateNewScore_eq]
  have hlt := newScore_found loaded score
  have hp := List.findIdx_getElem (w := hlt)
  simp only [beq_iff_eq] at hp
  refine ⟨((stdSort (loaded ++ [(score, "Player")]))[(stdSort (loaded ++
    [(score, "Player")])).findIdx (fun entry => entry.1 == score)]).2, ?_⟩
  simp only []
  rw [List.getElem?_eq_getElem hlt]
  congr 1
  exact Prod.ext hp rfl

theorem promptIssued_iff (loaded : List ScoreEntry) (score : Int) :
    promptIssued loaded score = true ↔ (locateNewScore loaded score).2 < 10 := by
  unfold promptIssued
  have h := locateNewScore_lt loaded score
  simp only [Bool.and_eq_true, decide_eq_true_eq]
  constructor
  · intro hh; exact hh.2
  · intro hh; exact ⟨Nat.ne_of_lt h, hh⟩

theorem eraseIdx_take_modify_sublist {α : Type} (f : α → α) :
    ∀ (l : List α) (n m : Nat), List.Sublist (((l.modify f n).take m).eraseIdx n) l
  | [], n, m => by cases n <;> simp [List.modify]
  | x :: xs, n, 0 => by simp
  | x :: xs, 0, m + 1 => by
    simp only [List.modify, List.modifyHead, List.take_succ_cons, List.eraseIdx_cons_zero]
    exact (List.take_sublist m xs).trans (List.sublist_cons_self x xs)
  | x :: xs, n + 1, m + 1 => by
    simp only [List.modify_succ_cons, List.take_succ_cons, List.eraseIdx_cons_succ]
    exact (eraseIdx_take_modify_sublist f xs n m).cons₂ x

theorem map_fst_modify (typed : String) :
    ∀ (l : List ScoreEntry) (n : Nat),
      (l.modify (fun entry => (entry.1, typed)) n).map Prod.fst = l.map Prod.fst
  | [], n => by cases n <;> simp [List.modify]
  | x :: xs, 0 => by simp [List.modify, List.modifyHead]
  | x :: xs, n + 1 => by
    simp only [List.modify_succ_cons, List.map_cons, map_fst_modify typed xs n]

theorem getElem?_modify_self {α : Type} (f : α → α) :
    ∀ (l : List α) (n : Nat), (l.modify f n)[n]? = (l[n]?).map f
  | [], n => by cases n <;> simp [List.modify]
  | x :: xs, 0 => by simp [List.modify, List.modifyHead]
  | x :: xs, n + 1 => by
    simp only [List.modify_succ_cons, List.getElem?_cons_succ, getElem?_modify_self f xs n]

theorem modify_findIdx_eq_map {α : Type} (p : α → Bool) (f : α → α) :
    ∀ l : List α, l.Pairwise (fun a b => ¬ (p a = true ∧ p b = true)) →
      l.modify f (l.findIdx p) = l.map (fun e => if p e = true then f e else e)
  | [], _ => by simp [List.modify]
  | x :: xs, h => by
    rw [List.pairwise_cons] at h
    by_cases hx : p x = true
    · have hrest : xs.map (fun e => if p e = true then f e else e) = xs := by
        conv_rhs => rw [← List.map_id xs]
        apply List.map_congr_left
        intro e he
        have := h.1 e he
        simp only [hx, true_and] at this
        simp [this]
      simp [List.findIdx_cons, hx, List.modify, List.modifyHead, hrest]
    · have ih := modify_findIdx_eq_map p f xs h.2
      simp only [List.findIdx_cons, hx, cond_false, List.modify_succ_cons, List.map_cons,
        if_false, Bool.false_eq_true]
      rw [ih]

theorem stdSort_one_entry_with_score (loaded : List ScoreEntry) (score : Int)
    (hnew : ∀ e ∈ loaded, e.1 ≠ score) :
    (stdSort (loaded ++ [(score, "Player")])).Pairwise
      (fun a b => ¬ ((a.1 == score) = true ∧ (b.1 == score) = true)) := by
  have hsymm : Symmetric (fun a b : ScoreEntry =>
      ¬ ((a.1 == score) = true ∧ (b.1 == score) = true)) := by
    intro a b h hba
    exact h ⟨hba.2, hba.1⟩
  rw [(stdSort_perm _).pairwise_iff (fun {a b} h => hsymm h), List.pairwise_append]
  refine ⟨?_, by simp, ?_⟩
  · rw [List.pairwise_iff_forall_sublist]
    intro a b hab
    have ha : a ∈ loaded := hab.subset (by simp)
    simp only [beq_iff_eq, not_and]
    intro h
    exact absurd h (hnew a ha)
  · intro a ha b _
    simp only [beq_iff_eq, not_and]
    intro h
    exact absurd h (hnew a ha)

theorem saveHighScores_new_score_ordered (loaded : List ScoreEntry) (score : Int)
    (typed : String) (hnew : ∀ e ∈ loaded, e.1 ≠ score) :
    (saveHighScores loaded score typed).Pairwise leaderboardOrdered := by
  have hs := stdSort_sorted (loaded ++ [(score, "Player")])
  have hone := stdSort_one_entry_with_score loaded score hnew
  unfold saveHighScores
  simp only []
  split
  · rw [locateNewScore_eq]
    simp only []
    rw [modify_findIdx_eq_map _ _ _ hone]
    refine List.Pairwise.sublist (List.take_sublist _ _) ?_
    rw [List.pairwise_map]
    refine List.Pairwise.imp ?_ (hs.and hone)
    intro a b hab
    obtain ⟨hab, hnot⟩ := hab
    simp only [beq_iff_eq, not_and] at hnot
    unfold leaderboardOrdered at hab ⊢
    by_cases ha : a.1 = score <;> by_cases hb : b.1 = score
    · exact absurd hb (hnot ha)
    · simp only [beq_iff_eq, ha, hb, if_true, if_false]
      left
      rcases hab with h | h
      · rw [← ha]; exact h
      · exact absurd (h.1.symm.trans ha) hb
    · simp only [beq_iff_eq, ha, hb, if_true, if_false]
      left
      rcases hab with h | h
      · rw [← hb]; exact h
      · exact absurd (h.1.trans hb) ha
    · simp only [beq_iff_eq, ha, hb, if_false]
      exact hab
  · rw [locateNewScore_eq]
    exact List.Pairwise.sublist (List.take_sublist _ _) hs

/-- C1 (as amended): the entries written are at most 10 and their scores never
increase down the list. When no loaded entry has the new score they are in
leaderboard order: score descending, ties by name ascending. In every case
they are in leaderboard order apart from the entry at the position found for
the new score (the one that receives the typed name). -/
theorem saveHighScores_ordered (loaded : List ScoreEntry) (score : Int) (typed : String) :
    (saveHighScores loaded score typed).length ≤ 10 ∧
    (saveHighScores loaded score typed).Pairwise (fun a b => b.1 ≤ a.1) ∧
    ((∀ e ∈ loaded, e.1 ≠ score) →
      (saveHighScores loaded score typed).Pairwise leaderboardOrdered) ∧
    ((saveHighScores loaded score typed).eraseIdx
      (locateNewScore loaded score).2).Pairwise leaderboardOrdered := by
  have hs := locateNewScore_sorted loaded score
  refine ⟨?_, ?_, saveHighScores_new_score_ordered loaded score typed, ?_⟩
  · unfold saveHighScores
    simp only [List.length_take]
    omega
  · have hsc : ((locateNewScore loaded score).1.map Prod.fst).Pairwise (fun a b => b ≤ a) := by
      rw [List.pairwise_map]
      refine List.Pairwise.imp ?_ hs
      intro a b hab
      unfold leaderboardOrdered at hab
      omega
    have hmap : (saveHighScores loaded score typed).map Prod.fst =
        ((locateNewScore loaded score).1.map Prod.fst).take 10 := by
      unfold saveHighScores
      simp only []
      split
      · rw [List.map_take, map_fst_modify]
      · rw [List.map_take]
    have h2 : ((saveHighScores loaded score typed).map Prod.fst).Pairwise (fun a b => b ≤ a) := by
      rw [hmap]
      exact List.Pairwise.sublist (List.take_sublist _ _) hsc
    rw [List.pairwise_map] at h2
    exact h2
  · refine List.Pairwise.sublist ?_ hs
    unfold saveHighScores
    simp only []
    split
    · exact eraseIdx_take_modify_sublist _ _ _ _
    · exact (List.eraseIdx_sublist _ _).trans (List.take_sublist _ _)

/-- C1 (counterexample): the board `[(50, "Zed")]`, the score 50 and the typed
name `"Zoe"`. The tentative entry sorts first, receives the name and stays
first, so `(50, "Zoe")` is written before `(50, "Zed")`. -/
theorem saveHighScores_not_ordered :
    saveHighScores [(50, "Zed")] 50 "Zoe" = [(50, "Zoe"), (50, "Zed")] ∧
    ¬ (saveHighScores [(50, "Zed")] 50 "Zoe").Pairwise leaderboardOrdered := by
  decide

/-- C2 (the code at the failing input): on the board `[(50, "Alice")]` the score
50 with the name `"Bob"` is written as `[(50, "Bob"), (50, "Player")]`: the name
goes to the entry of Alice, found first by its score, and the new entry keeps
`"Player"`. -/
theorem saveHighScores_tie_renames_existing :
    stdSort ([(50, "Alice")] ++ [(50, "Player")]) = [(50, "Alice"), (50, "Player")] ∧
    (locateNewScore [(50, "Alice")] 50).2 = 0 ∧
    saveHighScores [(50, "Alice")] 50 "Bob" = [(50, "Bob"), (50, "Player")] ∧
    saveHighScores [(50, "Alice")] 50 "Bob" ≠ [(50, "Alice"), (50, "Bob")] := by
  decide

/-- C3 (the code at the failing input): nine entries with scores 100..92 and
`(50, "Alice")`, new score 50. The tentative entry `(50, "Player")` is at index
10 of the sorted list, outside the first 10, yet the prompt is issued, because
the entry found by its score is the one of Alice at index 9; the typed name
replaces hers. -/
theorem promptIssued_tie_outside_top10 :
    (stdSort ([(100, "A"), (99, "B"), (98, "C"), (97, "D"), (96, "E"), (95, "F"),
      (94, "G"), (93, "H"), (92, "I"), (50, "Alice")] ++ [(50, "Player")])).indexOf
        (50, "Player") = 10 ∧
    promptIssued [(100, "A"), (99, "B"), (98, "C"), (97, "D"), (96, "E"), (95, "F"),
      (94, "G"), (93, "H"), (92, "I"), (50, "Alice")] 50 = true ∧
    saveHighScores [(100, "A"), (99, "B"), (98, "C"), (97, "D"), (96, "E"), (95, "F"),
      (94, "G"), (93, "H"), (92, "I"), (50, "Alice")] 50 "Bob" =
      [(100, "A"), (99, "B"), (98, "C"), (97, "D"), (96, "E"), (95, "F"),
        (94, "G"), (93, "H"), (92, "I"), (50, "Bob")] := by
  decide

/-- C9 (as amended): whenever the prompt is issued, the entry at the position
found for the new score is written with the new score and exactly the typed
line as its name, the empty line included. -/
theorem saveHighScores_stores_typed (loaded : List ScoreEntry) (score : Int)
    (typed : String) (hprompt : promptIssued loaded score = true) :
    (saveHighScores loaded score typed)[(locateNewScore loaded score).2]? =
      some (score, typed) := by
  obtain ⟨name, hname⟩ := locateNewScore_score loaded score
  have hlt := (promptIssued_iff loaded score).mp hprompt
  unfold saveHighScores
  simp only [hprompt, if_true]
  rw [List.getElem?_take_of_lt hlt, getElem?_modify_self, hname]
  rfl

theorem saveHighScores_stores_typed_witness :
    promptIssued [(70, "Ann")] 60 = true ∧
    (saveHighScores [(70, "Ann")] 60 "")[(locateNewScore [(70, "Ann")] 60).2]? =
      some (60, "") :=
  ⟨by decide, saveHighScores_stores_typed [(70, "Ann")] 60 "" (by decide)⟩

/-- C9 (counterexample): on the empty board the score 0 draws the prompt, and
an empty typed line is written as the name: the entry is `(0, "")`, not
`(0, "Player")`. -/
theorem saveHighScores_empty_name :
    promptIssued [] 0 = true ∧ saveHighScores [] 0 "" = [(0, "")] ∧
    saveHighScores [] 0 "" ≠ [(0, "Player")] := by
  decide


/-! ### Scoring -/

theorem timeBonus_eq (elapsedSeconds : ℚ) :
    timeBonus elapsedSeconds = ⌊max 0 (15 - elapsedSeconds)⌋ := by
  unfold timeBonus staticCastInt timeLimitSeconds
  rw [if_pos (le_max_left _ _)]
  norm_num

theorem timeBonus_of_late (elapsedSeconds : ℚ) (h : 15 ≤ elapsedSeconds) :
    timeBonus elapsedSeconds = 0 := by
  rw [timeBonus_eq, max_eq_left (by linarith)]
  exact Int.floor_zero

theorem timeBonus_of_early (elapsedSeconds : ℚ) (h : elapsedSeconds ≤ 15) :
    timeBonus elapsedSeconds = ⌊15 - elapsedSeconds⌋ := by
  rw [timeBonus_eq, max_eq_right (by linarith)]

theorem timeBonus_bounds (elapsedSeconds : ℚ) (h : 0 ≤ elapsedSeconds) :
    0 ≤ timeBonus elapsedSeconds ∧ timeBonus elapsedSeconds ≤ 15 := by
  rw [timeBonus_eq]
  constructor
  · exact Int.floor_nonneg.mpr (le_max_left _ _)
  · have h1 : max 0 (15 - elapsedSeconds) ≤ ((15 : Int) : ℚ) := by
      apply max_le <;> norm_num
      exact h
    have := Int.floor_le_floor h1
    rwa [Int.floor_intCast] at this

theorem playQuestion_score (score : Int) (q : Question) (userAnswer : String)
    (elapsedSeconds : ℚ) :
    (playQuestion score q userAnswer elapsedSeconds).score =
      if q.checkAnswer userAnswer then score + (10 + timeBonus elapsedSeconds) else score := by
  unfold playQuestion
  simp only []
  split <;> split <;> rfl

theorem playQuestion_cout_late (score : Int) (q : Question) (userAnswer : String)
    (elapsedSeconds : ℚ) (h : 15 ≤ elapsedSeconds) :
    "Out of time! No points awarded for this question.\n" ∈
      (playQuestion score q userAnswer elapsedSeconds).cout := by
  unfold playQuestion timeLimitSeconds
  simp only []
  rw [if_pos (by push_cast; exact h)]
  simp

/-- C4 (the code on the failing inputs): a correct answer given after the time
limit adds 10 points to the score, and the same round prints "Out of time! No
points awarded for this question.". -/
theorem playQuestion_late_correct_adds_ten (score : Int) (q : Question)
    (userAnswer : String) (elapsedSeconds : ℚ)
    (hcorrect : q.checkAnswer userAnswer = true) (hlate : 15 ≤ elapsedSeconds) :
    (playQuestion score q userAnswer elapsedSeconds).score = score + 10 ∧
    "Out of time! No points awarded for this question.\n" ∈
      (playQuestion score q userAnswer elapsedSeconds).cout := by
  refine ⟨?_, playQuestion_cout_late score q userAnswer elapsedSeconds hlate⟩
  rw [playQuestion_score, if_pos hcorrect, timeBonus_of_late _ hlate]
  rfl

theorem playQuestion_late_correct_adds_ten_witness :
    (Question.checkAnswer ⟨"Capital of France", "Paris"⟩ "paris" = true ∧
      (15 : ℚ) ≤ 16) ∧
    ((playQuestion 0 ⟨"Capital of France", "Paris"⟩ "paris" 16).score = 0 + 10 ∧
      "Out of time! No points awarded for this question.\n" ∈
        (playQuestion 0 ⟨"Capital of France", "Paris"⟩ "paris" 16).cout) :=
  ⟨⟨by decide, by norm_num⟩,
    playQuestion_late_correct_adds_ten 0 ⟨"Capital of France", "Paris"⟩ "paris" 16
      (by decide) (by norm_num)⟩

/-- C5: for every answer and every elapsed time that is not negative, the
points one question adds are 0 or between 10 and 25; a wrong answer adds 0; a
correct answer before the limit adds `10 + floor (15 - elapsed)`, and 25 when
no time has elapsed. -/
theorem playQuestion_points (score : Int) (q : Question) (userAnswer : String)
    (elapsedSeconds : ℚ) (hnonneg : 0 ≤ elapsedSeconds) :
    ((playQuestion score q userAnswer elapsedSeconds).score - score = 0 ∨
      (10 ≤ (playQuestion score q userAnswer elapsedSeconds).score - score ∧
        (playQuestion score q userAnswer elapsedSeconds).score - score ≤ 25)) ∧
    (q.checkAnswer userAnswer = false →
      (playQuestion score q userAnswer elapsedSeconds).score - score = 0) ∧
    (q.checkAnswer userAnswer = true → elapsedSeconds < 15 →
      (playQuestion score q userAnswer elapsedSeconds).score - score =
        10 + ⌊15 - elapsedSeconds⌋) ∧
    (q.checkAnswer userAnswer = true → elapsedSeconds = 0 →
      (playQuestion score q userAnswer elapsedSeconds).score - score = 25) := by
  have hb := timeBonus_bounds elapsedSeconds hnonneg
  rw [playQuestion_score]
  cases hc : q.checkAnswer userAnswer
  · simp
  · simp only [if_true, true_implies]
    refine ⟨Or.inr ⟨by omega, by omega⟩, by simp, ?_, ?_⟩
    · intro hlt
      rw [timeBonus_of_early _ (le_of_lt hlt)]
      omega
    · intro h0
      rw [timeBonus_of_early _ (by rw [h0]; norm_num), h0]
      norm_num

theorem playQuestion_points_witness :
    (0 : ℚ) ≤ 0 ∧
    (((playQuestion 0 ⟨"What is 2+2?", "4"⟩ "4" 0).score - 0 = 0 ∨
      (10 ≤ (playQuestion 0 ⟨"What is 2+2?", "4"⟩ "4" 0).score - 0 ∧
        (playQuestion 0 ⟨"What is 2+2?", "4"⟩ "4" 0).score - 0 ≤ 25)) ∧
    (Question.checkAnswer ⟨"What is 2+2?", "4"⟩ "4" = false →
      (playQuestion 0 ⟨"What is 2+2?", "4"⟩ "4" 0).score - 0 = 0) ∧
    (Question.checkAnswer ⟨"What is 2+2?", "4"⟩ "4" = true → (0 : ℚ) < 15 →
      (playQuestion 0 ⟨"What is 2+2?", "4"⟩ "4" 0).score - 0 =
        10 + ⌊(15 : ℚ) - 0⌋) ∧
    (Question.checkAnswer ⟨"What is 2+2?", "4"⟩ "4" = true → (0 : ℚ) = 0 →
      (playQuestion 0 ⟨"What is 2+2?", "4"⟩ "4" 0).score - 0 = 25)) :=
  ⟨le_refl 0, playQuestion_points 0 ⟨"What is 2+2?", "4"⟩ "4" 0 (le_refl 0)⟩

/-! ### Answer checking -/

theorem toNat_ofNat_of_lt (n : Nat) (h : n < 55296) : (Char.ofNat n).toNat = n := by
  have hv : n.isValidChar := Or.inl h
  rw [Char.ofNat, dif_pos hv]
  rfl

theorem toupper_toNat (c : Char) :
    (toupper c).toNat = if 97 ≤ c.toNat ∧ c.toNat ≤ 122 then c.toNat - 32 else c.toNat := by
  unfold toupper
  split
  · rename_i h
    exact toNat_ofNat_of_lt _ (by omega)
  · rfl

theorem toupper_eq_iff (c d : Char) : toupper c = toupper d ↔ sameIgnoringCase c d := by
  unfold sameIgnoringCase
  constructor
  · intro h
    have hn : (toupper c).toNat = (toupper d).toNat := by rw [h]
    rw [toupper_toNat, toupper_toNat] at hn
    by_cases hcd : c.toNat = d.toNat
    · exact Or.inl (char_eq_of_toNat_eq hcd)
    · right
      split at hn <;> split at hn <;> omega
  · intro h
    apply char_eq_of_toNat_eq
    rw [toupper_toNat, toupper_toNat]
    rcases h with h | h | h
    · rw [h]
    · split <;> split <;> omega
    · split <;> split <;> omega

theorem map_toupper_eq_iff : ∀ u a : List Char,
    u.map toupper = a.map toupper ↔ List.Forall₂ sameIgnoringCase u a
  | [], [] => by simp
  | [], _ :: _ => by simp
  | _ :: _, [] => by simp
  | c :: cs, d :: ds => by
    simp only [List.map_cons, List.cons.injEq, List.forall₂_cons, toupper_eq_iff,
      map_toupper_eq_iff cs ds]

theorem checkAnswer_eq_true_iff (q : Question) (userAnswer : String) :
    q.checkAnswer userAnswer = true ↔
      userAnswer.data.map toupper = q.answer.data.map toupper := by
  unfold Question.checkAnswer transformToupper
  simp only [beq_iff_eq, String.ext_iff]

/-- C6: `checkAnswer` accepts a submission exactly when it has the length of
the stored answer and agrees with it character by character up to the case of
ASCII letters (nothing is trimmed); two submissions that differ only in the
case of ASCII letters get the same verdict; for the stored answer `"Paris"`
the submissions `"Paris"`, `"PARIS"` and `"paris"` are accepted, and
`" Paris"` and `"Paris "` are not. -/
theorem checkAnswer_case_insensitive (q : Question) (u v : String) :
    (q.checkAnswer u = true ↔ List.Forall₂ sameIgnoringCase u.data q.answer.data) ∧
    (List.Forall₂ sameIgnoringCase u.data v.data → q.checkAnswer u = q.checkAnswer v) ∧
    (Question.checkAnswer ⟨q.question, "Paris"⟩ "Paris" = true ∧
      Question.checkAnswer ⟨q.question, "Paris"⟩ "PARIS" = true ∧
      Question.checkAnswer ⟨q.question, "Paris"⟩ "paris" = true ∧
      Question.checkAnswer ⟨q.question, "Paris"⟩ " Paris" = false ∧
      Question.checkAnswer ⟨q.question, "Paris"⟩ "Paris " = false) := by
  refine ⟨?_, ?_, ?_⟩
  · rw [checkAnswer_eq_true_iff, map_toupper_eq_iff]
  · intro h
    have huv : u.data.map toupper = v.data.map toupper := (map_toupper_eq_iff _ _).mpr h
    have h1 := checkAnswer_eq_true_iff q u
    have h2 := checkAnswer_eq_true_iff q v
    rw [huv] at h1
    cases hu : q.checkAnswer u <;> cases hv : q.checkAnswer v <;> simp_all
  · unfold Question.checkAnswer
    simp only []
    refine ⟨?_, ?_, ?_, ?_, ?_⟩ <;> decide


/-! ### Reading lines -/

theorem extractUntil_of_not_mem (delim : Char) :
    ∀ xs : List Char, delim ∉ xs → extractUntil delim xs = (xs, [], false)
  | [], _ => rfl
  | c :: cs, h => by
    have hc : c ≠ delim := fun e => h (by simp [e])
    have ht : delim ∉ cs := fun e => h (by simp [e])
    simp [extractUntil, hc, extractUntil_of_not_mem delim cs ht]

theorem extractUntil_append (delim : Char) (rest : List Char) :
    ∀ xs : List Char, delim ∉ xs →
      extractUntil delim (xs ++ delim :: rest) = (xs, rest, true)
  | [], _ => by simp [extractUntil]
  | c :: cs, h => by
    have hc : c ≠ delim := fun e => h (by simp [e])
    have ht : delim ∉ cs := fun e => h (by simp [e])
    simp [extractUntil, hc, extractUntil_append delim rest cs ht]

/-- Every text either has no delimiter, or splits at its first delimiter. -/
theorem split_at_first (delim : Char) :
    ∀ l : List Char, delim ∉ l ∨
      ∃ xs rest, l = xs ++ delim :: rest ∧ delim ∉ xs
  | [] => Or.inl (by simp)
  | c :: cs => by
    by_cases hc : c = delim
    · exact Or.inr ⟨[], cs, by simp [hc], by simp⟩
    · rcases split_at_first delim cs with h | ⟨xs, rest, h1, h2⟩
      · left
        simp only [List.mem_cons, not_or]
        exact ⟨fun e => hc e.symm, h⟩
      · right
        refine ⟨c :: xs, rest, by simp [h1], ?_⟩
        simp only [List.mem_cons, not_or]
        exact ⟨fun e => hc e.symm, h2⟩

theorem getline_found (buf xs rest : List Char) (str : String) (delim : Char)
    (hbuf : buf = xs ++ delim :: rest) (hxs : delim ∉ xs) :
    getline { buf := buf, eofbit := false, failbit := false } str delim =
      ({ buf := rest, eofbit := false, failbit := false }, String.mk xs) := by
  unfold getline
  simp [IStream.good, hbuf, extractUntil_append delim rest xs hxs]

theorem getline_not_found (buf : List Char) (str : String) (delim : Char)
    (hbuf : delim ∉ buf) :
    getline { buf := buf, eofbit := false, failbit := false } str delim =
      ({ buf := [], eofbit := true, failbit := buf.isEmpty }, String.mk buf) := by
  unfold getline
  simp [IStream.good, extractUntil_of_not_mem delim buf hbuf]

theorem getline_at_eof (buf : List Char) (failbit : Bool) (str : String) (delim : Char) :
    getline { buf := buf, eofbit := true, failbit := failbit } str delim =
      ({ buf := buf, eofbit := true, failbit := true }, str) := by
  unfold getline
  simp [IStream.good]

/-! ### Parsing one line -/

theorem parseLine_no_bar (line : String) (h : '|' ∉ line.data) : parseLine line = none := by
  unfold parseLine IStream.open
  simp only []
  rw [getline_not_found line.data "" _ h]
  cases hl : line.data with
  | nil => simp [IStream.toBool]
  | cons c cs => simp [IStream.toBool, getline_at_eof]

theorem parseLine_one_bar (line : String) (p r : List Char)
    (hline : line.data = p ++ '|' :: r) (hp : '|' ∉ p) (hr : '|' ∉ r) :
    parseLine line = none := by
  unfold parseLine IStream.open
  simp only []
  rw [getline_found line.data p r "" _ hline hp]
  simp only [IStream.toBool, Bool.not_false, if_true]
  rw [getline_not_found r "" _ hr]
  cases r with
  | nil => simp
  | cons c cs => simp [getline_at_eof]

theorem parseLine_two_bars (line : String) (p a c : List Char)
    (hline : line.data = p ++ '|' :: (a ++ '|' :: c)) (hp : '|' ∉ p) (ha : '|' ∉ a)
    (hc : '\n' ∉ c) :
    parseLine line =
      if c = [] then none
      else some { question := String.mk p, answer := String.mk a, category := String.mk c } := by
  unfold parseLine IStream.open
  simp only []
  rw [getline_found line.data p _ "" _ hline hp]
  simp only [IStream.toBool, Bool.not_false, if_true]
  rw [getline_found (a ++ '|' :: c) a c "" _ rfl ha]
  simp only [Bool.not_false, if_true]
  rw [getline_not_found c "" _ hc]
  cases c with
  | nil => simp
  | cons x xs => simp

theorem parseLine_eq_some_iff (line : String) (q : CategoryQuestion)
    (hnl : '\n' ∉ line.data) :
    parseLine line = some q ↔
      (line.data = q.question.data ++ '|' :: (q.answer.data ++ '|' :: q.category.data) ∧
        '|' ∉ q.question.data ∧ '|' ∉ q.answer.data ∧ q.category.data ≠ []) := by
  constructor
  · intro h
    rcases split_at_first '|' line.data with h1 | ⟨p, r, hline, hp⟩
    · rw [parseLine_no_bar line h1] at h
      exact absurd h (by simp)
    · rcases split_at_first '|' r with h2 | ⟨a, c, hr, ha⟩
      · rw [parseLine_one_bar line p r hline hp h2] at h
        exact absurd h (by simp)
      · rw [hr] at hline
        have hc : '\n' ∉ c := fun e => hnl (by rw [hline]; simp [e])
        rw [parseLine_two_bars line p a c hline hp ha hc] at h
        by_cases hcn : c = []
        · rw [if_pos hcn] at h
          exact absurd h (by simp)
        · rw [if_neg hcn] at h
          simp only [Option.some.injEq] at h
          subst h
          exact ⟨hline, hp, ha, hcn⟩
  · rintro ⟨hline, hp, ha, hc⟩
    have hcn : '\n' ∉ q.category.data := fun e => hnl (by rw [hline]; simp [e])
    rw [parseLine_two_bars line _ _ _ hline hp ha hcn, if_neg hc]

/-! ### The loading loop -/

theorem loadLoop_at_eof (fuel : Nat) (buf : List Char) (failbit : Bool) (str : String)
    (bank : Bank) :
    loadLoop fuel { buf := buf, eofbit := true, failbit := failbit } str bank = bank := by
  cases fuel with
  | zero => rfl
  | succ f =>
    unfold loadLoop
    simp [getline_at_eof, IStream.toBool]

theorem loadLoop_nil (fuel : Nat) (str : String) (bank : Bank) :
    loadLoop fuel { buf := [], eofbit := false, failbit := false } str bank = bank := by
  cases fuel with
  | zero => rfl
  | succ f =>
    unfold loadLoop
    simp [getline_not_found [] str '\n' (by simp), IStream.toBool]

theorem loadLoop_line (fuel : Nat) (line rest : List Char) (str : String) (bank : Bank)
    (hline : '\n' ∉ line) :
    loadLoop (fuel + 1) { buf := line ++ '\n' :: rest, eofbit := false, failbit := false }
        str bank =
      loadLoop fuel { buf := rest, eofbit := false, failbit := false } (String.mk line)
        (loadLine bank (String.mk line)) := by
  rw [loadLoop]
  simp [getline_found _ line rest str '\n' rfl hline, IStream.toBool]

theorem loadLoop_last (fuel : Nat) (line : List Char) (str : String) (bank : Bank)
    (hline : '\n' ∉ line) (hne : line ≠ []) :
    loadLoop (fuel + 1) { buf := line, eofbit := false, failbit := false } str bank =
      loadLine bank (String.mk line) := by
  rw [loadLoop]
  cases line with
  | nil => exact absurd rfl hne
  | cons c cs =>
    simp [getline_not_found _ str '\n' hline, IStream.toBool, loadLoop_at_eof]

/-- The loop has run to its end once the fuel exceeds the length of the text:
more fuel, or another initial value of `line`, gives the same bank. -/
theorem loadLoop_fuel : ∀ (n : Nat) (buf : List Char), buf.length ≤ n →
    ∀ (f1 f2 : Nat), buf.length + 1 ≤ f1 → buf.length + 1 ≤ f2 →
    ∀ (str1 str2 : String) (bank : Bank),
      loadLoop f1 { buf := buf, eofbit := false, failbit := false } str1 bank =
        loadLoop f2 { buf := buf, eofbit := false, failbit := false } str2 bank := by
  intro n
  induction n with
  | zero =>
    intro buf hlen f1 f2 _ _ str1 str2 bank
    have hb : buf = [] := List.length_eq_zero.mp (Nat.le_zero.mp hlen)
    subst hb
    rw [loadLoop_nil, loadLoop_nil]
  | succ n ih =>
    intro buf hlen f1 f2 h1 h2 str1 str2 bank
    obtain ⟨g1, rfl⟩ : ∃ g, f1 = g + 1 := ⟨f1 - 1, by omega⟩
    obtain ⟨g2, rfl⟩ : ∃ g, f2 = g + 1 := ⟨f2 - 1, by omega⟩
    rcases split_at_first '\n' buf with hno | ⟨xs, rest, hbuf, hxs⟩
    · by_cases hb : buf = []
      · subst hb
        rw [loadLoop_nil, loadLoop_nil]
      · rw [loadLoop_last g1 buf str1 bank hno hb, loadLoop_last g2 buf str2 bank hno hb]
    · subst hbuf
      rw [loadLoop_line g1 xs rest str1 bank hxs, loadLoop_line g2 xs rest str2 bank hxs]
      simp only [List.length_append, List.length_cons] at hlen h1 h2
      exact ih rest (by omega) g1 g2 (by omega) (by omega) _ _ _

theorem loadQuestionsFromFile_line (bank : Bank) (filename : String) (line rest : String)
    (hline : '\n' ∉ line.data) :
    loadQuestionsFromFile bank filename (some (line ++ "\n" ++ rest)) =
      loadQuestionsFromFile (loadLine bank line) filename (some rest) := by
  unfold loadQuestionsFromFile IStream.open
  simp only [String.length, String.data_append, List.length_append]
  have hd : line.data ++ "\n".data ++ rest.data = line.data ++ '\n' :: rest.data := by
    simp [show "\n".data = ['\n'] from rfl]
  rw [hd, loadLoop_line _ line.data rest.data "" bank hline]
  have hlen : rest.data.length + 1 ≤ (line ++ "\n" ++ rest).length := by
    have h1 : (line ++ "\n" ++ rest).length = line.length + "\n".length + rest.length := by
      rw [String.length_append, String.length_append]
    have h2 : rest.length = rest.data.length := rfl
    have h3 : "\n".length = 1 := rfl
    omega
  exact loadLoop_fuel rest.data.length rest.data (le_refl _) _ _ hlen (le_refl _) _ _ _

theorem loadQuestionsFromFile_last (bank : Bank) (filename : String) (line : String)
    (hline : '\n' ∉ line.data) (hne : line ≠ "") :
    loadQuestionsFromFile bank filename (some line) = loadLine bank line := by
  unfold loadQuestionsFromFile IStream.open
  have hd : line.data ≠ [] := fun e => hne (String.ext_iff.mpr e)
  exact loadLoop_last _ line.data "" bank hline hd

theorem loadQuestionsFromFile_empty (bank : Bank) (filename : String) :
    loadQuestionsFromFile bank filename (some "") = bank := by
  unfold loadQuestionsFromFile IStream.open
  exact loadLoop_nil _ _ _

/-! ### Round trip and the effect of one line -/

theorem serialize_cons (q : CategoryQuestion) (qs : List CategoryQuestion) :
    serialize (q :: qs) =
      (q.question ++ "|" ++ q.answer ++ "|" ++ q.category) ++ "\n" ++ serialize qs := by
  have hfold : ∀ (l : List CategoryQuestion) (t : String),
      l.foldl appendLine t = t ++ l.foldl appendLine "" := by
    intro l
    induction l with
    | nil => intro t; simp
    | cons x xs ih =>
      intro t
      simp only [List.foldl_cons]
      rw [ih (appendLine t x), ih (appendLine "" x)]
      simp [appendLine, String.append_assoc]
  unfold serialize
  simp only [List.foldl_cons]
  rw [hfold]
  simp [appendLine, questionLine]

theorem parseLine_joined (q : CategoryQuestion)
    (hq : delimiterFree q.question) (ha : delimiterFree q.answer)
    (hc : '\n' ∉ q.category.data) (hne : q.category ≠ "") :
    '\n' ∉ (q.question ++ "|" ++ q.answer ++ "|" ++ q.category).data ∧
    parseLine (q.question ++ "|" ++ q.answer ++ "|" ++ q.category) = some q := by
  have hbar : "|".data = ['|'] := rfl
  have hnl : '\n' ∉ (q.question ++ "|" ++ q.answer ++ "|" ++ q.category).data := by
    simp only [String.data_append, hbar, List.mem_append, List.mem_singleton, not_or]
    exact ⟨⟨⟨⟨hq.2, by decide⟩, ha.2⟩, by decide⟩, hc⟩
  refine ⟨hnl, (parseLine_eq_some_iff _ q hnl).mpr ⟨?_, hq.1, ha.1, ?_⟩⟩
  · simp [String.data_append, hbar]
  · exact fun e => hne (String.ext_iff.mpr e)

/-- The categories `addQuestion` can give a question are the enumerated ones,
and each of them is given for some choice. -/
theorem categoryOfChoice_iff_enumerated (category : String) :
    (∃ categoryChoice : Int, categoryOfChoice categoryChoice = some category) ↔
      enumeratedCategory category := by
  unfold enumeratedCategory
  constructor
  · rintro ⟨n, hn⟩
    unfold categoryOfChoice at hn
    split_ifs at hn <;> simp at hn <;> subst hn <;> decide
  · intro h
    simp only [List.mem_cons, List.mem_singleton, List.not_mem_nil, or_false] at h
    rcases h with h | h | h | h | h
    · exact ⟨1, by rw [h]; rfl⟩
    · exact ⟨2, by rw [h]; rfl⟩
    · exact ⟨3, by rw [h]; rfl⟩
    · exact ⟨4, by rw [h]; rfl⟩
    · exact ⟨5, by rw [h]; rfl⟩

theorem enumeratedCategory_ne_empty (category : String)
    (h : enumeratedCategory category) : category ≠ "" := by
  unfold enumeratedCategory at h
  simp only [List.mem_cons, List.mem_singleton, List.not_mem_nil, or_false] at h
  rcases h with h | h | h | h | h <;> rw [h] <;> decide

/-- Questions whose prompt and answer contain neither `|` nor a newline, and
whose category contains no newline and is not empty, are read back from the
text `addQuestion` writes for them. -/
theorem loadQuestionsFromFile_serialize (qs : List CategoryQuestion) (bank : Bank)
    (filename : String)
    (hfree : ∀ q ∈ qs, delimiterFree q.question ∧ delimiterFree q.answer ∧
      '\n' ∉ q.category.data ∧ q.category ≠ "") :
    loadQuestionsFromFile bank filename (some (serialize qs)) =
      { bank with questions := bank.questions ++ qs } := by
  induction qs generalizing bank with
  | nil =>
    have h : serialize [] = "" := rfl
    rw [h, loadQuestionsFromFile_empty]
    simp
  | cons q qs ih =>
    obtain ⟨hq, ha, hc, hne⟩ := hfree q (by simp)
    obtain ⟨hnl, hparse⟩ := parseLine_joined q hq ha hc hne
    rw [serialize_cons, loadQuestionsFromFile_line bank filename _ _ hnl]
    have hload : loadLine bank (q.question ++ "|" ++ q.answer ++ "|" ++ q.category) =
        { bank with questions := bank.questions ++ [q] } := by
      unfold loadLine
      rw [hparse]
    rw [hload, ih _ (fun x hx => hfree x (by simp [hx]))]
    simp

/-- C7: for every sequence of questions (the category one of the five
enumerated names) whose prompt, answer and category contain neither `|` nor a
newline, `loadQuestionsFromFile` run on the text `addQuestion` writes for them,
one line `prompt|answer|category` each, adds exactly these questions to the
bank, in the same order, and reports nothing. -/
theorem load_serialize_roundtrip (qs : List CategoryQuestion) (bank : Bank)
    (filename : String)
    (hfree : ∀ q ∈ qs, delimiterFree q.question ∧ delimiterFree q.answer ∧
      delimiterFree q.category)
    (hcategory : ∀ q ∈ qs, enumeratedCategory q.category) :
    loadQuestionsFromFile bank filename (some (serialize qs)) =
      { bank with questions := bank.questions ++ qs } :=
  loadQuestionsFromFile_serialize qs bank filename (fun q hq =>
    ⟨(hfree q hq).1, (hfree q hq).2.1, (hfree q hq).2.2.2,
      enumeratedCategory_ne_empty q.category (hcategory q hq)⟩)

theorem load_serialize_roundtrip_witness :
    ((∀ q ∈ [({ question := "What is 2+2?", answer := "4", category := "Science" } :
        CategoryQuestion),
      { question := "Capital of France", answer := "Paris", category := "Geography" }],
      delimiterFree q.question ∧ delimiterFree q.answer ∧ delimiterFree q.category) ∧
    (∀ q ∈ [({ question := "What is 2+2?", answer := "4", category := "Science" } :
        CategoryQuestion),
      { question := "Capital of France", answer := "Paris", category := "Geography" }],
      enumeratedCategory q.category)) ∧
    serialize [{ question := "What is 2+2?", answer := "4", category := "Science" },
      { question := "Capital of France", answer := "Paris", category := "Geography" }] =
      "What is 2+2?|4|Science\nCapital of France|Paris|Geography\n" ∧
    loadQuestionsFromFile { questions := [], cerr := [] } "questions.txt"
      (some (serialize [{ question := "What is 2+2?", answer := "4", category := "Science" },
        { question := "Capital of France", answer := "Paris", category := "Geography" }])) =
      { questions := [] ++ [{ question := "What is 2+2?", answer := "4", category := "Science" },
        { question := "Capital of France", answer := "Paris", category := "Geography" }],
        cerr := [] } :=
  ⟨⟨by decide, by decide⟩, by decide,
    load_serialize_roundtrip _ { questions := [], cerr := [] } "questions.txt"
      (by decide) (by decide)⟩

/-- C8 (as amended): for every category choice from 1 to 5, `addQuestion`
appends the new question to the in-memory bank whether or not `questions.txt`
can be opened; the file gains the line when it opens and is left as it was,
with a diagnostic, when it does not. -/
theorem addQuestion_appends (questions : List CategoryQuestion) (question answer : String)
    (categoryChoice : Int) (questionsTxt : Option String)
    (hlow : 1 ≤ categoryChoice) (hhigh : categoryChoice ≤ 5) :
    ∃ category, categoryOfChoice categoryChoice = some category ∧
      category ∈ ["History", "Geography", "Science", "Entertainment", "Art"] ∧
      (addQuestion questions question answer categoryChoice questionsTxt).questions =
        questions ++ [{ question := question, answer := answer, category := category }] ∧
      (addQuestion questions question answer categoryChoice questionsTxt).questionsTxt =
        questionsTxt.map (fun text =>
          appendLine text { question := question, answer := answer, category := category }) ∧
      (addQuestion questions question answer categoryChoice questionsTxt).cerr =
        if questionsTxt.isSome then [] else ["Unable to open questions.txt for appending.\n"] := by
  have hcases : categoryChoice = 1 ∨ categoryChoice = 2 ∨ categoryChoice = 3 ∨
      categoryChoice = 4 ∨ categoryChoice = 5 := by omega
  rcases hcases with h | h | h | h | h <;> subst h <;> cases questionsTxt <;>
    simp [addQuestion, categoryOfChoice]

theorem addQuestion_appends_witness :
    ((1 : Int) ≤ 3 ∧ (3 : Int) ≤ 5) ∧
    ∃ category, categoryOfChoice 3 = some category ∧
      category ∈ ["History", "Geography", "Science", "Entertainment", "Art"] ∧
      (addQuestion [] "What is H2O?" "Water" 3 none).questions =
        [] ++ [{ question := "What is H2O?", answer := "Water", category := category }] ∧
      (addQuestion [] "What is H2O?" "Water" 3 none).questionsTxt =
        (none : Option String).map (fun text =>
          appendLine text { question := "What is H2O?", answer := "Water", category := category }) ∧
      (addQuestion [] "What is H2O?" "Water" 3 none).cerr =
        if (none : Option String).isSome then []
        else ["Unable to open questions.txt for appending.\n"] :=
  ⟨by decide, addQuestion_appends [] "What is H2O?" "Water" 3 none (by decide) (by decide)⟩

/-- C8 (counterexample): with an empty bank, the category choice 3 and a file
that cannot be opened, the bank after `addQuestion` holds the new question. -/
theorem addQuestion_unwritable_changes_bank :
    (addQuestion [] "What is H2O?" "Water" 3 none).questions =
      [{ question := "What is H2O?", answer := "Water", category := "Science" }] ∧
    (addQuestion [] "What is H2O?" "Water" 3 none).questions ≠ [] ∧
    (addQuestion [] "What is H2O?" "Water" 3 none).questionsTxt = none := by
  decide

/-- C10 (as amended): a line adds a question exactly when it has a first and a
second `|` and at least one character after the second; the prompt is the text
before the first `|`, the answer the text between the two, the category all the
rest. Any other line, the empty line included, adds nothing and is reported on
the error stream; in both cases loading goes on with the text after the line. -/
theorem loadLine_effect (bank : Bank) (filename : String) (line rest : String)
    (q : CategoryQuestion) (hline : '\n' ∉ line.data) :
    (parseLine line = some q ↔
      (line = q.question ++ "|" ++ q.answer ++ "|" ++ q.category ∧
        '|' ∉ q.question.data ∧ '|' ∉ q.answer.data ∧ q.category ≠ "")) ∧
    (parseLine line = some q →
      loadLine bank line = { bank with questions := bank.questions ++ [q] }) ∧
    (parseLine line = none →
      loadLine bank line =
        { bank with cerr := bank.cerr ++ ["Invalid line in file: " ++ line] }) ∧
    loadLine bank "" = { bank with cerr := bank.cerr ++ ["Invalid line in file: "] } ∧
    loadQuestionsFromFile bank filename (some (line ++ "\n" ++ rest)) =
      loadQuestionsFromFile (loadLine bank line) filename (some rest) ∧
    (line ≠ "" → loadQuestionsFromFile bank filename (some line) = loadLine bank line) ∧
    loadQuestionsFromFile bank filename (some "") = bank := by
  have hbar : "|".data = ['|'] := rfl
  refine ⟨?_, ?_, ?_, ?_, loadQuestionsFromFile_line bank filename line rest hline,
    loadQuestionsFromFile_last bank filename line hline,
    loadQuestionsFromFile_empty bank filename⟩
  · rw [parseLine_eq_some_iff line q hline, String.ext_iff]
    have hne : q.category.data ≠ [] ↔ q.category ≠ "" := by
      rw [Ne, Ne, String.ext_iff]
    rw [hne]
    simp [String.data_append, hbar]
  · intro h
    unfold loadLine
    rw [h]
  · intro h
    unfold loadLine
    rw [h]
  · rfl

theorem loadLine_effect_witness :
    '\n' ∉ "What is 2+2?|4|Science".data ∧
    ((parseLine "What is 2+2?|4|Science" =
        some { question := "What is 2+2?", answer := "4", category := "Science" } ↔
      ("What is 2+2?|4|Science" = "What is 2+2?" ++ "|" ++ "4" ++ "|" ++ "Science" ∧
        '|' ∉ "What is 2+2?".data ∧ '|' ∉ "4".data ∧ "Science" ≠ "")) ∧
    (parseLine "What is 2+2?|4|Science" =
        some { question := "What is 2+2?", answer := "4", category := "Science" } →
      loadLine { questions := [], cerr := [] } "What is 2+2?|4|Science" =
        { questions := [] ++
            [{ question := "What is 2+2?", answer := "4", category := "Science" }],
          cerr := [] }) ∧
    (parseLine "What is 2+2?|4|Science" = none →
      loadLine { questions := [], cerr := [] } "What is 2+2?|4|Science" =
        { questions := [],
          cerr := [] ++ ["Invalid line in file: " ++ "What is 2+2?|4|Science"] }) ∧
    loadLine { questions := [], cerr := [] } "" =
      { questions := [], cerr := [] ++ ["Invalid line in file: "] } ∧
    loadQuestionsFromFile { questions := [], cerr := [] } "questions.txt"
        (some ("What is 2+2?|4|Science" ++ "\n" ++ "bad line")) =
      loadQuestionsFromFile
        (loadLine { questions := [], cerr := [] } "What is 2+2?|4|Science")
        "questions.txt" (some "bad line") ∧
    ("What is 2+2?|4|Science" ≠ "" →
      loadQuestionsFromFile { questions := [], cerr := [] } "questions.txt"
          (some "What is 2+2?|4|Science") =
        loadLine { questions := [], cerr := [] } "What is 2+2?|4|Science") ∧
    loadQuestionsFromFile { questions := [], cerr := [] } "questions.txt" (some "") =
      { questions := [], cerr := [] }) :=
  ⟨by decide,
    loadLine_effect { questions := [], cerr := [] } "questions.txt"
      "What is 2+2?|4|Science" "bad line"
      { question := "What is 2+2?", answer := "4", category := "Science" } (by decide)⟩

/-- C10 (counterexample): the line `q|a|` contains two `|` and adds no question;
the empty line of the file `"\n"` is reported on the error stream. -/
theorem loadLine_two_bars_rejected :
    "q|a|".data.count '|' = 2 ∧ parseLine "q|a|" = none ∧
    loadQuestionsFromFile { questions := [], cerr := [] } "questions.txt" (some "q|a|\n") =
      { questions := [], cerr := ["Invalid line in file: q|a|"] } ∧
    loadQuestionsFromFile { questions := [], cerr := [] } "questions.txt" (some "\n") =
      { questions := [], cerr := ["Invalid line in file: "] } := by
  decide
end QuizGame
